import Mathlib

set_option maxRecDepth 100000

/-!
Verification development for the evmTools repository (ERC-721 snapshot tool and
ERC-20 multi-wallet portfolio tracker).

The TypeScript sources are shallowly embedded: blockchain queries become oracle
functions passed as arguments (`none` models a failed/reverted call), JS objects
become association lists that preserve first-insertion order, JS numbers become
exact integer fractions (`Frac`) with an explicit binary64 rounding function
`roundB64` applied wherever the source performs floating-point arithmetic
(`parseFloat`, `+`, `*`, `/`), and decimal strings (formatUnits / formatEther
output, balance strings) are represented by the exact value they denote.
-/

namespace EvmTools

/-- Chain account identifier; the sources use plain strings (viem `Address`). -/
abbrev Address := String

/-! ## ERC-721 snapshot tool (src/erc721snapshot.ts)

`createSnapshot` queries `ownerOf` for every index in a range and counts, per
owner address, how many indices resolved to it.  A failed `ownerOf` call is
`getTokenOwner` returning `null`, modelled as `none`. -/

/-- JS object write `holders[owner] = (holders[owner] || 0) + 1`: bump the value
at the first (and, for a JS object, only) occurrence of the key, or append a
fresh entry with count 1. -/
def tallyInc : List (Address × Nat) → Address → List (Address × Nat)
  | [], a => [(a, 1)]
  | p :: t, a => if p.1 = a then (p.1, p.2 + 1) :: t else p :: tallyInc t a

/-- The scan loop of `createSnapshot` (erc721snapshot.ts lines 115-127): fold
over the index list, incrementing the owner's tally when `getTokenOwner`
returned an owner.  The source guard `if (owner)` is JS truthiness, so a `null`
result and (vacuously, given viem's address type) an empty string are skipped. -/
def scanHolders (getTokenOwner : Nat → Option Address) (idxs : List Nat) :
    List (Address × Nat) :=
  idxs.foldl (fun holders i =>
    match getTokenOwner i with
    | some a => if a.isEmpty then holders else tallyInc holders a
    | none => holders) []

/-- JS truthiness of an optional numeric argument: `undefined` and `0` are
falsy (`!startId`, `!endId` in the source). -/
def jsTruthyNat : Option Nat → Bool
  | none => false
  | some n => n != 0

/-- Range computation of `createSnapshot` (erc721snapshot.ts lines 99-111):
if the totalSupply call succeeded, `start = startId ? startId : 0` and
`end = endId ? endId : totalSupply`; if it failed, throw unless both `startId`
and `endId` are truthy, in which case `totalSupply = endId` and the same two
selections yield `(startId, endId)`. -/
def snapshotRange (totalSupply : Option Nat) (startId endId : Option Nat) :
    Except String (Nat × Nat) :=
  match totalSupply with
  | some t =>
    Except.ok
      ((if jsTruthyNat startId then startId.getD 0 else 0),
       (if jsTruthyNat endId then endId.getD 0 else t))
  | none =>
    if jsTruthyNat startId && jsTruthyNat endId then
      Except.ok (startId.getD 0, endId.getD 0)
    else
      Except.error "Must provide startId and endId if totalSupply is not available"

/-- `createSnapshot` (erc721snapshot.ts lines 93-130): determine the range,
then scan indices `start, start+1, ..., end-1` in ascending order.
`totalSupply = none` models a failing totalSupply call. -/
def createSnapshot (totalSupply : Option Nat) (getTokenOwner : Nat → Option Address)
    (startId endId : Option Nat) : Except String (List (Address × Nat)) :=
  (snapshotRange totalSupply startId endId).map fun r =>
    scanHolders getTokenOwner (List.range' r.1 (r.2 - r.1))

/-- The indices `createSnapshot` queries `ownerOf` for: the ascending range on
success, nothing when the configuration error is thrown (the throw happens
before the scan loop). -/
def snapshotQueried (totalSupply : Option Nat) (startId endId : Option Nat) :
    List Nat :=
  match snapshotRange totalSupply startId endId with
  | Except.ok r => List.range' r.1 (r.2 - r.1)
  | Except.error _ => []

/-- `getAirdropEligible` (erc721snapshot.ts lines 190-194): entries with
`count >= minTokens`, keys only, in snapshot order. -/
def getAirdropEligible (snapshot : List (Address × Nat)) (minTokens : Nat) :
    List Address :=
  (snapshot.filter fun p => minTokens ≤ p.2).map Prod.fst

/-- Sum of the tally counts. -/
def tallySum (tally : List (Address × Nat)) : Nat := (tally.map Prod.snd).sum

/-- Scenario A owner oracle: indices 0,2,4 resolve to X,X,Y; 1 and 3 fail. -/
def ownerScenarioA : Nat → Option Address := fun i =>
  if i = 0 then some "X" else if i = 2 then some "X"
  else if i = 4 then some "Y" else none

theorem tallyInc_sum (t : List (Address × Nat)) (a : Address) :
    tallySum (tallyInc t a) = tallySum t + 1 := by
  induction t with
  | nil => simp [tallyInc, tallySum]
  | cons p t ih =>
    by_cases h : p.1 = a <;> simp [tallyInc, h, tallySum] at ih ⊢ <;> omega

theorem tallyInc_pos (t : List (Address × Nat)) (a : Address)
    (h : ∀ p ∈ t, 0 < p.2) : ∀ p ∈ tallyInc t a, 0 < p.2 := by
  induction t with
  | nil => simp [tallyInc]
  | cons q t ih =>
    by_cases hq : q.1 = a
    · simp only [tallyInc, hq, if_pos rfl]
      intro p hp
      rcases List.mem_cons.mp hp with h1 | h2
      · subst h1; simp
      · exact h p (List.mem_cons_of_mem _ h2)
    · simp only [tallyInc, hq, if_neg hq]
      intro p hp
      rcases List.mem_cons.mp hp with h1 | h2
      · exact h p (by simp [h1])
      · exact ih (fun p hp => h p (List.mem_cons_of_mem _ hp)) p h2

theorem scanHolders_go_sum (getTokenOwner : Nat → Option Address)
    (idxs : List Nat) (acc : List (Address × Nat))
    (hne : ∀ i a, getTokenOwner i = some a → a.isEmpty = false) :
    tallySum (idxs.foldl (fun holders i =>
      match getTokenOwner i with
      | some a => if a.isEmpty then holders else tallyInc holders a
      | none => holders) acc)
      = tallySum acc + (idxs.filter fun i => (getTokenOwner i).isSome).length := by
  induction idxs generalizing acc with
  | nil => simp
  | cons i idxs ih =>
    cases howner : getTokenOwner i with
    | none => simp [List.foldl_cons, howner, ih, List.filter_cons]
    | some a =>
      have ha : a.isEmpty = false := hne i a howner
      simp [List.foldl_cons, howner, ha, ih, List.filter_cons, tallyInc_sum]
      omega

theorem scanHolders_go_pos (getTokenOwner : Nat → Option Address)
    (idxs : List Nat) (acc : List (Address × Nat))
    (hacc : ∀ p ∈ acc, 0 < p.2) :
    ∀ p ∈ idxs.foldl (fun holders i =>
      match getTokenOwner i with
      | some a => if a.isEmpty then holders else tallyInc holders a
      | none => holders) acc, 0 < p.2 := by
  induction idxs generalizing acc with
  | nil => simpa using hacc
  | cons i idxs ih =>
    cases howner : getTokenOwner i with
    | none => simpa [List.foldl_cons, howner] using ih acc hacc
    | some a =>
      by_cases ha : a.isEmpty
      · simpa [List.foldl_cons, howner, ha] using ih acc hacc
      · simpa [List.foldl_cons, howner, ha] using
          ih (tallyInc acc a) (tallyInc_pos acc a hacc)

/-- C1: the tally returned by `createSnapshot` sums to the number of queried
indices whose `ownerOf` call succeeded, every count is strictly positive, and
Scenario A (range `[0,5)`, indices 1 and 3 unresolved, 0,2,4 owned by X,X,Y)
yields exactly `{X: 2, Y: 1}`.  The hypothesis that successful owner results
are nonempty strings reflects viem's `Address` type (a `0x`-led string). -/
theorem c1_holder_tally (totalSupply : Option Nat)
    (getTokenOwner : Nat → Option Address) (startId endId : Option Nat)
    (tally : List (Address × Nat))
    (hok : createSnapshot totalSupply getTokenOwner startId endId = Except.ok tally)
    (hne : ∀ i a, getTokenOwner i = some a → a.isEmpty = false) :
    tallySum tally
        = ((snapshotQueried totalSupply startId endId).filter
            fun i => (getTokenOwner i).isSome).length
      ∧ (∀ p ∈ tally, 0 < p.2)
      ∧ createSnapshot (some 5) ownerScenarioA none none
          = Except.ok [("X", 2), ("Y", 1)] := by
  refine ⟨?_, ?_, by rfl⟩
  · cases hrange : snapshotRange totalSupply startId endId with
    | error e =>
      simp [createSnapshot, hrange, Except.map] at hok
    | ok r =>
      simp only [createSnapshot, hrange, Except.map] at hok
      cases hok
      simp only [snapshotQueried, hrange, scanHolders]
      simpa [tallySum] using
        scanHolders_go_sum getTokenOwner (List.range' r.1 (r.2 - r.1)) [] hne
  · cases hrange : snapshotRange totalSupply startId endId with
    | error e =>
      simp [createSnapshot, hrange, Except.map] at hok
    | ok r =>
      simp only [createSnapshot, hrange, Except.map] at hok
      cases hok
      exact scanHolders_go_pos getTokenOwner (List.range' r.1 (r.2 - r.1)) []
        (by simp)

theorem c1_holder_tally_witness :
    tallySum [("X", 2), ("Y", 1)]
        = ((snapshotQueried (some 5) none none).filter
            fun i => (ownerScenarioA i).isSome).length
      ∧ (∀ p ∈ [(("X" : Address), 2), ("Y", 1)], 0 < p.2)
      ∧ createSnapshot (some 5) ownerScenarioA none none
          = Except.ok [("X", 2), ("Y", 1)] :=
  c1_holder_tally (some 5) ownerScenarioA none none [("X", 2), ("Y", 1)]
    (by rfl)
    (by
      intro i a h
      simp only [ownerScenarioA] at h
      split at h
      · cases h; rfl
      · split at h
        · cases h; rfl
        · split at h
          · cases h; rfl
          · cases h)

/-- JS `toLowerCase`, spelled through the character list so that it evaluates
by kernel reduction (ASCII addresses only use `Char.toLower`-faithful cases). -/
def toLowerCase (s : String) : String := String.mk (s.data.map Char.toLower)

/-- `addWallet` (part_000 lines 120-122): wallets are stored lowercased, in
insertion order. -/
def addWallet (wallets : List (Address × String)) (address : Address)
    (label : String) : List (Address × String) :=
  wallets ++ [(toLowerCase address, label)]

/-- Whether an `Except` value is a success. -/
def exceptOk {ε α : Type} : Except ε α → Bool
  | Except.ok _ => true
  | Except.error _ => false

/-- C4 counterexample: the totalSupply query fails and an explicit `endId = 5`
is given, yet `createSnapshot` still throws the configuration error (the source
guard is `!startId || !endId`, so a missing `startId` also aborts), contrary to
the claim that the scan then proceeds over the caller's range. -/
theorem c4_counterexample :
    createSnapshot none (fun _ => none) none (some 5)
      = Except.error "Must provide startId and endId if totalSupply is not available" := by
  rfl

/-- C4 amended: `createSnapshot` throws the fatal configuration error exactly
when the totalSupply query fails and at least one of `startId`, `endId` is
missing or `0` (both are required, and `0` counts as missing because the source
tests JS truthiness); when it throws, no index is ever queried — the error is
surfaced before any scanning. -/
theorem c4_range_error (totalSupply : Option Nat)
    (getTokenOwner : Nat → Option Address) (startId endId : Option Nat) :
    (exceptOk (createSnapshot totalSupply getTokenOwner startId endId) = false
      ↔ totalSupply = none
        ∧ (jsTruthyNat startId = false ∨ jsTruthyNat endId = false))
    ∧ (exceptOk (createSnapshot totalSupply getTokenOwner startId endId) = false
        → snapshotQueried totalSupply startId endId = []) := by
  cases totalSupply with
  | some t =>
    simp [createSnapshot, snapshotRange, Except.map, exceptOk]
  | none =>
    by_cases hs : jsTruthyNat startId = true
    · by_cases he : jsTruthyNat endId = true
      · simp [createSnapshot, snapshotRange, hs, he, Except.map, exceptOk]
      · simp only [Bool.not_eq_true] at he
        simp [createSnapshot, snapshotRange, hs, he, Except.map, exceptOk,
          snapshotQueried]
    · simp only [Bool.not_eq_true] at hs
      simp [createSnapshot, snapshotRange, hs, Except.map, exceptOk,
        snapshotQueried]

theorem c4_range_error_witness :
    snapshotQueried none none (some 5) = [] :=
  (c4_range_error none (fun _ => none) none (some 5)).2 (by rfl)

/-- C9 counterexample owner oracle: index 0 owned by `0xAB`, index 1 by
`0xab` — the same account written in two letter cases. -/
def ownerMixedCase : Nat → Option Address := fun i =>
  if i = 0 then some "0xAB" else some "0xab"

/-- C9 counterexample: two `ownerOf` results differing only in letter case end
up as two separate tally entries of count 1 each, not one entry of count 2 —
`createSnapshot` keys the holder tally by the owner string exactly as returned,
with no case normalization. -/
theorem c9_counterexample :
    createSnapshot (some 2) ownerMixedCase none none
        = Except.ok [("0xAB", 1), ("0xab", 1)]
      ∧ toLowerCase "0xAB" = toLowerCase "0xab"
      ∧ ("0xAB" : String) ≠ "0xab" :=
  ⟨by rfl, by decide, by decide⟩

theorem tallyInc_mem (t : List (Address × Nat)) (a : Address)
    (p : Address × Nat) (hp : p ∈ tallyInc t a) : p ∈ t ∨ p.1 = a := by
  induction t with
  | nil => simp [tallyInc] at hp; simp [hp]
  | cons q t ih =>
    by_cases hq : q.1 = a
    · simp only [tallyInc, if_pos hq] at hp
      rcases List.mem_cons.mp hp with h1 | h2
      · right; rw [h1] at *; exact hq
      · left; exact List.mem_cons_of_mem _ h2
    · simp only [tallyInc, if_neg hq] at hp
      rcases List.mem_cons.mp hp with h1 | h2
      · left; simp [h1]
      · rcases ih h2 with h3 | h3
        · left; exact List.mem_cons_of_mem _ h3
        · right; exact h3

theorem scanHolders_go_keys (getTokenOwner : Nat → Option Address)
    (idxs : List Nat) (acc : List (Address × Nat)) (p : Address × Nat)
    (hp : p ∈ idxs.foldl (fun holders i =>
      match getTokenOwner i with
      | some a => if a.isEmpty then holders else tallyInc holders a
      | none => holders) acc) :
    p ∈ acc ∨ ∃ i ∈ idxs, getTokenOwner i = some p.1 := by
  induction idxs generalizing acc with
  | nil => simp at hp; simp [hp]
  | cons i idxs ih =>
    simp only [List.foldl_cons] at hp
    cases howner : getTokenOwner i with
    | none =>
      rw [howner] at hp
      rcases ih acc hp with h1 | ⟨j, hj, hjo⟩
      · left; exact h1
      · right; exact ⟨j, List.mem_cons_of_mem _ hj, hjo⟩
    | some a =>
      rw [howner] at hp
      by_cases ha : a.isEmpty
      · simp only [ha, if_pos] at hp
        rcases ih acc hp with h1 | ⟨j, hj, hjo⟩
        · left; exact h1
        · right; exact ⟨j, List.mem_cons_of_mem _ hj, hjo⟩
      · simp only [ha, if_neg] at hp
        rcases ih (tallyInc acc a) hp with h1 | ⟨j, hj, hjo⟩
        · rcases tallyInc_mem acc a p h1 with h2 | h2
          · left; exact h2
          · right; exact ⟨i, List.mem_cons_self i idxs, by rw [howner, h2]⟩
        · right; exact ⟨j, List.mem_cons_of_mem _ hj, hjo⟩

/-- C9 amended: addresses added through `addWallet` are lowercased on
ingestion, so two wallet addresses differing only in case become the same
stored key; but the holder tally built by the snapshot scan keys owners by the
exact string the ledger returned (no normalization), so owner results differing
only in case form separate entries (see the counterexample). -/
theorem c9_wallet_normalization :
    (∀ (wallets : List (Address × String)) (a : Address) (label : String),
        addWallet wallets a label = wallets ++ [(toLowerCase a, label)])
    ∧ (∀ (wallets : List (Address × String)) (a b : Address) (label : String),
        toLowerCase a = toLowerCase b
          → addWallet wallets a label = addWallet wallets b label)
    ∧ (∀ (getTokenOwner : Nat → Option Address) (idxs : List Nat)
        (p : Address × Nat), p ∈ scanHolders getTokenOwner idxs →
          ∃ i ∈ idxs, getTokenOwner i = some p.1) := by
  refine ⟨fun _ _ _ => rfl, fun w a b l h => by simp [addWallet, h], ?_⟩
  intro getTokenOwner idxs p hp
  rcases scanHolders_go_keys getTokenOwner idxs [] p hp with h1 | h2
  · simp at h1
  · exact h2

theorem c9_wallet_normalization_witness :
    addWallet [] "0xAB" "Main" = addWallet [] "0xab" "Main" :=
  c9_wallet_normalization.2.1 [] "0xAB" "0xab" "Main" (by decide)

/-- C10: `getAirdropEligible` returns exactly the addresses whose count meets
the threshold (membership characterization), contains no duplicates whenever
the snapshot keys are distinct (always true of a JS object), and with the
default threshold `minTokens = 1` it returns every holder of a tally whose
counts are all ≥ 1 (which `createSnapshot` guarantees, see C1).  The function
reads the snapshot purely; nothing is mutated. -/
theorem c10_airdrop_eligible (snapshot : List (Address × Nat)) (minTokens : Nat)
    (a : Address) :
    (a ∈ getAirdropEligible snapshot minTokens
        ↔ ∃ c, (a, c) ∈ snapshot ∧ minTokens ≤ c)
    ∧ ((snapshot.map Prod.fst).Nodup → (getAirdropEligible snapshot minTokens).Nodup)
    ∧ ((∀ p ∈ snapshot, 1 ≤ p.2) →
        getAirdropEligible snapshot 1 = snapshot.map Prod.fst) := by
  refine ⟨?_, ?_, ?_⟩
  · constructor
    · intro h
      rcases List.mem_map.mp h with ⟨p, hp, hpa⟩
      have hmem := List.mem_filter.mp hp
      refine ⟨p.2, ?_, by simpa using hmem.2⟩
      have : p = (a, p.2) := by
        cases p; simp at hpa; simp [hpa]
      rw [← this]; exact hmem.1
    · rintro ⟨c, hc, hmc⟩
      exact List.mem_map.mpr ⟨(a, c),
        List.mem_filter.mpr ⟨hc, by simpa using hmc⟩, rfl⟩
  · intro hnd
    exact List.Nodup.sublist
      (List.Sublist.map Prod.fst (List.filter_sublist snapshot)) hnd
  · intro hall
    have hfil : (snapshot.filter fun p => 1 ≤ p.2) = snapshot :=
      List.filter_eq_self.mpr (fun p hp => by simpa using hall p hp)
    simp [getAirdropEligible, hfil]

theorem c10_airdrop_eligible_witness :
    "X" ∈ getAirdropEligible [("X", 2), ("Y", 1)] 2
      ∧ (getAirdropEligible [("X", 2), ("Y", 1)] 2).Nodup
      ∧ getAirdropEligible [("X", 2), ("Y", 1)] 1 = ["X", "Y"] := by
  refine ⟨?_, ?_, ?_⟩
  · exact (c10_airdrop_eligible [("X", 2), ("Y", 1)] 2 "X").1.mpr
      ⟨2, by decide, by decide⟩
  · exact (c10_airdrop_eligible [("X", 2), ("Y", 1)] 2 "X").2.1 (by decide)
  · rw [(c10_airdrop_eligible [("X", 2), ("Y", 1)] 2 "X").2.2 (by decide)]
    rfl

/-! ## JS numbers: exact binary64 model

JS arithmetic (`parseFloat`, `+`, `*`, `/`, numeric literals) is IEEE-754
binary64.  Values are represented as unnormalized integer fractions (so that
everything evaluates by kernel reduction), and `roundB64` is rounding to the
nearest binary64 value, ties to even: `roundB64` is applied exactly where the
source parses a decimal string or performs a float operation. -/

/-- Unnormalized fraction `n / d`; every constructor in this development keeps
`d` positive. -/
structure Frac where
  n : ℤ
  d : ℤ
deriving DecidableEq

/-- Exact fraction addition (no rounding). -/
def fadd (a b : Frac) : Frac := ⟨a.n * b.d + b.n * a.d, a.d * b.d⟩

/-- Exact fraction multiplication (no rounding). -/
def fmul (a b : Frac) : Frac := ⟨a.n * b.n, a.d * b.d⟩

/-- Semantic equality of fractions (cross multiplication). -/
def feq (a b : Frac) : Bool := a.n * b.d == b.n * a.d

/-- Semantic strict order of fractions with positive denominators. -/
def flt (a b : Frac) : Bool := a.n * b.d < b.n * a.d

instance : OfNat Frac m := ⟨⟨m, 1⟩⟩

/-- Fuel-bounded base-2 integer logarithm (structural recursion, so concrete
values reduce in the kernel; `log2N` supplies enough fuel). -/
def log2fuel : Nat → Nat → Nat
  | 0, _ => 0
  | f + 1, m => if m ≤ 1 then 0 else log2fuel f (m / 2) + 1

def log2N (m : Nat) : Nat := log2fuel m m

/-- `2 ^ e` as a fraction. -/
def pow2 (e : ℤ) : Frac :=
  if 0 ≤ e then ⟨2 ^ e.toNat, 1⟩ else ⟨1, 2 ^ (-e).toNat⟩

/-- `⌊log₂ q⌋` for a positive fraction: a first guess from the numerator and
denominator logarithms is off by at most one and is corrected by comparison. -/
def floorLog2 (q : Frac) : ℤ :=
  let e0 : ℤ := (log2N q.n.toNat : ℤ) - (log2N q.d.toNat : ℤ)
  if flt q (pow2 (e0 + 1)) then (if flt q (pow2 e0) then e0 - 1 else e0)
  else e0 + 1

/-- Round a fraction with positive denominator to the nearest integer, ties to
even (the IEEE-754 default rounding of the significand). -/
def roundTiesEven (q : Frac) : ℤ :=
  let f := Int.fdiv q.n q.d
  let r2 := 2 * (q.n - f * q.d)
  if r2 < q.d then f
  else if q.d < r2 then f + 1
  else if f % 2 = 0 then f else f + 1

/-- Round an exact fraction to the nearest IEEE-754 binary64 value (returned
as an exact fraction): a 53-bit significand at the value's binary exponent,
clamped below at the subnormal exponent -1022.  The inputs arising in this
development are far below the overflow threshold, so infinities do not arise. -/
def roundB64 (q : Frac) : Frac :=
  if q.n = 0 then ⟨0, 1⟩
  else
    let a : Frac := ⟨|q.n|, |q.d|⟩
    let e : ℤ := max (floorLog2 a) (-1022)
    let m : ℤ := roundTiesEven (fmul a (pow2 (52 - e)))
    let v : Frac := fmul ⟨m, 1⟩ (pow2 (e - 52))
    if 0 < q.n * q.d then v else ⟨-v.n, v.d⟩

/-! ## Price cache (part_000 lines 127-150 / erc20portfoliotracker.js 57-73)

`getTokenPrice` first tests `if (this.priceCache[tokenSymbol])` — JS
truthiness, so both an absent entry and a cached `0` fall through to the
oracle.  A successful HTTP response stores `data[id]?.usd || 0` in the cache
(caching `0` when the id or the `usd` field is missing); a thrown error
(network / non-ok status) returns `0` without touching the cache. -/

/-- Outcome of one oracle (CoinGecko) request: `fail` is a network error or
non-ok HTTP status (the source throws), `ok usd` is a parsed response where
`usd` is `data[coingeckoId]?.usd` (`none` when the id or field is absent). -/
inductive OracleOutcome where
  | fail : OracleOutcome
  | ok : Option Frac → OracleOutcome
deriving DecidableEq

/-- Result of one `getTokenPrice` call: the returned price, the cache
afterwards, and whether the oracle was queried at all. -/
structure PriceResult where
  price : Frac
  cache : List (String × Frac)
  queried : Bool
deriving DecidableEq

/-- First value stored under a key, `none` if absent (JS object read). -/
def cacheGet : List (String × Frac) → String → Option Frac
  | [], _ => none
  | p :: t, k => if p.1 = k then some p.2 else cacheGet t k

/-- JS object write: overwrite the first occurrence of the key in place, else
append. -/
def cacheSet : List (String × Frac) → String → Frac → List (String × Frac)
  | [], k, v => [(k, v)]
  | p :: t, k, v => if p.1 = k then (k, v) :: t else p :: cacheSet t k v

/-- JS truthiness of a cache read: absent and `0` are falsy. -/
def priceTruthy : Option Frac → Bool
  | none => false
  | some p => p.n != 0

/-- `getTokenPrice` for one call, the oracle's behavior on that call passed as
`oracle`. -/
def getTokenPrice (priceCache : List (String × Frac)) (tokenSymbol : String)
    (oracle : OracleOutcome) : PriceResult :=
  if priceTruthy (cacheGet priceCache tokenSymbol) then
    ⟨(cacheGet priceCache tokenSymbol).getD 0, priceCache, false⟩
  else
    match oracle with
    | OracleOutcome.fail => ⟨0, priceCache, true⟩
    | OracleOutcome.ok usd =>
      let price := usd.getD 0
      ⟨price, cacheSet priceCache tokenSymbol price, true⟩

theorem cacheGet_cacheSet (c : List (String × Frac)) (k : String) (v : Frac) :
    cacheGet (cacheSet c k v) k = some v := by
  induction c with
  | nil => simp [cacheGet, cacheSet]
  | cons p t ih =>
    by_cases h : p.1 = k
    · simp [cacheSet, cacheGet, h]
    · simp [cacheSet, cacheGet, h, ih]

/-- C5: when the symbol is not usably cached and the price lookup fails —
either a thrown network/HTTP error or a success response missing the id/usd
field — `getTokenPrice` returns 0, and the cache it leaves behind never
satisfies the truthy guard for that symbol, so a later call re-queries the
oracle; if that later call succeeds with price `p`, it returns `p` (Scenario
D: a transient failure does not poison the cache). -/
theorem c5_failure_not_cached (priceCache : List (String × Frac))
    (tokenSymbol : String) (oracle : OracleOutcome) (p : Frac)
    (hmiss : priceTruthy (cacheGet priceCache tokenSymbol) = false)
    (hfail : oracle = OracleOutcome.fail ∨ oracle = OracleOutcome.ok none) :
    (getTokenPrice priceCache tokenSymbol oracle).price = 0
    ∧ priceTruthy (cacheGet (getTokenPrice priceCache tokenSymbol oracle).cache
        tokenSymbol) = false
    ∧ (getTokenPrice (getTokenPrice priceCache tokenSymbol oracle).cache
        tokenSymbol (OracleOutcome.ok (some p))).price = p
    ∧ (getTokenPrice (getTokenPrice priceCache tokenSymbol oracle).cache
        tokenSymbol (OracleOutcome.ok (some p))).queried = true := by
  rcases hfail with h | h <;> subst h
  · have h1 : getTokenPrice priceCache tokenSymbol OracleOutcome.fail
        = ⟨0, priceCache, true⟩ := by
      unfold getTokenPrice; rw [hmiss]; simp
    rw [h1]
    refine ⟨rfl, hmiss, ?_⟩
    have h2 : getTokenPrice priceCache tokenSymbol (OracleOutcome.ok (some p))
        = ⟨p, cacheSet priceCache tokenSymbol p, true⟩ := by
      unfold getTokenPrice; rw [hmiss]; simp
    rw [h2]
    exact ⟨rfl, rfl⟩
  · have h1 : getTokenPrice priceCache tokenSymbol (OracleOutcome.ok none)
        = ⟨0, cacheSet priceCache tokenSymbol 0, true⟩ := by
      unfold getTokenPrice; rw [hmiss]; simp
    have h2 : priceTruthy
        (cacheGet (cacheSet priceCache tokenSymbol 0) tokenSymbol) = false := by
      rw [cacheGet_cacheSet]; rfl
    rw [h1]
    refine ⟨rfl, h2, ?_⟩
    have h3 : getTokenPrice (cacheSet priceCache tokenSymbol 0) tokenSymbol
        (OracleOutcome.ok (some p))
        = ⟨p, cacheSet (cacheSet priceCache tokenSymbol 0) tokenSymbol p, true⟩ := by
      unfold getTokenPrice; rw [h2]; simp
    rw [h3]
    exact ⟨rfl, rfl⟩

theorem c5_failure_not_cached_witness :
    (getTokenPrice [] "ETH" OracleOutcome.fail).price = 0
    ∧ priceTruthy (cacheGet (getTokenPrice [] "ETH" OracleOutcome.fail).cache
        "ETH") = false
    ∧ (getTokenPrice (getTokenPrice [] "ETH" OracleOutcome.fail).cache "ETH"
        (OracleOutcome.ok (some 5))).price = 5
    ∧ (getTokenPrice (getTokenPrice [] "ETH" OracleOutcome.fail).cache "ETH"
        (OracleOutcome.ok (some 5))).queried = true :=
  c5_failure_not_cached [] "ETH" OracleOutcome.fail 5 (by decide) (Or.inl rfl)

/-- C6 counterexample: a price of 0 that was successfully resolved and stored
(first call: ok response with `usd = 0`) does not short-circuit the next call —
the cached 0 is falsy, so the oracle is queried again and its new answer (7) is
returned, contrary to the claim that a cached symbol is never re-queried
"including when the cached price is 0". -/
theorem c6_counterexample :
    (getTokenPrice [] "UNI" (OracleOutcome.ok (some 0))).cache = [("UNI", 0)]
    ∧ (getTokenPrice [("UNI", 0)] "UNI" (OracleOutcome.ok (some 7))).queried
        = true
    ∧ (getTokenPrice [("UNI", 0)] "UNI" (OracleOutcome.ok (some 7))).price
        = 7 := by
  refine ⟨by rfl, by rfl, by rfl⟩

/-- C6 amended: a cached symbol short-circuits the oracle exactly when the
cached price is nonzero: any later `getTokenPrice` call then returns the
cached price unchanged, leaves the cache untouched, and never queries the
oracle.  A cached price of 0 is falsy to the source's truthiness guard and
causes a fresh oracle query (see the counterexample). -/
theorem c6_cache_hit (priceCache : List (String × Frac)) (tokenSymbol : String)
    (p : Frac) (oracle : OracleOutcome)
    (hcached : cacheGet priceCache tokenSymbol = some p) (hp : p.n ≠ 0) :
    getTokenPrice priceCache tokenSymbol oracle = ⟨p, priceCache, false⟩ := by
  unfold getTokenPrice
  rw [hcached]
  simp [priceTruthy, hp]

theorem c6_cache_hit_witness :
    getTokenPrice [("UNI", 9)] "UNI" OracleOutcome.fail
      = ⟨9, [("UNI", 9)], false⟩ :=
  c6_cache_hit [("UNI", 9)] "UNI" 9 OracleOutcome.fail (by rfl) (by decide)

/-! ## Portfolio tracker (part_000 / erc20portfoliotracker.js)

Balance oracles: `ethOracle w` is `client.getBalance` in wei (`none` = the call
threw, caught as the string `"0"`); `tokenOracle t w` is the `balanceOf` view
call (`none` = the call threw, caught as `BigInt(0)`).  Balance strings
(`formatEther` / `formatUnits` output) are the exact decimal values `wei/10^18`
and `raw/10^decimals`; `parseFloat` of such a string is `roundB64` of it. -/

/-- Token registry entry (`TokenConfig` in part_000). -/
structure TokenConfig where
  address : Option Address
  decimals : Nat
  symbol : String
deriving DecidableEq

/-- One retained balance (`TokenBalance` in part_000); `balance` is the exact
value of the stored decimal string. -/
structure TokenBalance where
  balance : Frac
  symbol : String
  decimals : Nat
deriving DecidableEq

/-- viem `formatUnits`: the exact decimal value of `raw` scaled down. -/
def formatUnits (raw : Nat) (decimals : Nat) : Frac := ⟨raw, 10 ^ decimals⟩

/-- viem `formatEther` = `formatUnits _ 18`. -/
def formatEther (wei : Nat) : Frac := formatUnits wei 18

/-- `getETHBalance` (part_000 lines 166-174): formatted balance on success,
the string `"0"` (value 0) when the query throws. -/
def getETHBalance (ethOracle : Address → Option Nat) (address : Address) : Frac :=
  match ethOracle address with
  | some wei => formatEther wei
  | none => ⟨0, 1⟩

/-- `getTokenBalance` (part_000 lines 176-189): the raw `balanceOf` result on
success, `BigInt(0)` when the query throws. -/
def getTokenBalance (tokenOracle : Address → Address → Option Nat)
    (tokenAddress walletAddress : Address) : Nat :=
  (tokenOracle tokenAddress walletAddress).getD 0

/-- JS object write `balances[symbol] = {...}`: overwrite the first occurrence
of the key in place, else append. -/
def objSetBal : List (String × TokenBalance) → String → TokenBalance
    → List (String × TokenBalance)
  | [], k, v => [(k, v)]
  | p :: t, k, v => if p.1 = k then (k, v) :: t else p :: objSetBal t k v

/-- The token loop of `getWalletBalances` (part_000 lines 205-219): for each
configured token with a contract address, read the raw balance; retain it when
`balance > 0n` and `parseFloat(formatUnits(balance, decimals)) > 0.001`, the
comparison being between binary64 values (`0.001` is itself parsed to its
nearest binary64).  The retained `balance` field is the exact formatted
string, unaltered. -/
def walletTokenLoop (tokenOracle : Address → Address → Option Nat)
    (walletAddress : Address) : List (String × TokenConfig)
    → List (String × TokenBalance) → List (String × TokenBalance)
  | [], balances => balances
  | (sym, token) :: rest, balances =>
    match token.address with
    | none => walletTokenLoop tokenOracle walletAddress rest balances
    | some tokenAddress =>
      let balance := getTokenBalance tokenOracle tokenAddress walletAddress
      if 0 < balance then
        let formattedBalance := formatUnits balance token.decimals
        if flt (roundB64 ⟨1, 1000⟩) (roundB64 formattedBalance) then
          walletTokenLoop tokenOracle walletAddress rest
            (objSetBal balances sym
              ⟨formattedBalance, token.symbol, token.decimals⟩)
        else walletTokenLoop tokenOracle walletAddress rest balances
      else walletTokenLoop tokenOracle walletAddress rest balances

/-- The ETH part of `getWalletBalances` (part_000 lines 195-202): the native
balance is retained when `parseFloat(ethBalance) > 0` — with no dust
comparison. -/
def ethBase (ethOracle : Address → Option Nat) (walletAddress : Address) :
    List (String × TokenBalance) :=
  if flt ⟨0, 1⟩ (roundB64 (getETHBalance ethOracle walletAddress)) then
    [("ETH", ⟨getETHBalance ethOracle walletAddress, "ETH", 18⟩)]
  else []

/-- `getWalletBalances` (part_000 lines 191-222): the ETH entry first, then
the token loop over the configured token set. -/
def getWalletBalances (ethOracle : Address → Option Nat)
    (tokenOracle : Address → Address → Option Nat)
    (tokens : List (String × TokenConfig)) (walletAddress : Address) :
    List (String × TokenBalance) :=
  walletTokenLoop tokenOracle walletAddress tokens
    (ethBase ethOracle walletAddress)

/-- The aggregation write of `aggregatePortfolio` (part_000 lines 241-252):
create a zero entry if the symbol is absent (keeping the incoming symbol and
decimals), then `balance = (parseFloat(old) + parseFloat(incoming)).toString()`
— a binary64 addition.  The accumulated balance is itself a binary64 value, so
re-parsing its printed string is the identity. -/
def aggInc : List (String × TokenBalance) → String → TokenBalance
    → List (String × TokenBalance)
  | [], sym, data =>
    [(sym, ⟨roundB64 (fadd ⟨0, 1⟩ (roundB64 data.balance)),
      data.symbol, data.decimals⟩)]
  | p :: t, sym, data =>
    if p.1 = sym then
      (p.1, { p.2 with
        balance := roundB64 (fadd p.2.balance (roundB64 data.balance)) }) :: t
    else p :: aggInc t sym data

/-- Per-wallet section of the portfolio result. -/
structure WalletDetails where
  address : Address
  label : String
  balances : List (String × TokenBalance)
deriving DecidableEq

/-- `PortfolioData` (part_000): cross-wallet totals plus the ordered
per-wallet breakdown. -/
structure PortfolioData where
  aggregatedBalances : List (String × TokenBalance)
  walletDetails : List WalletDetails
deriving DecidableEq

/-- The wallet loop of `aggregatePortfolio` (part_000 lines 230-253). -/
def aggregateLoop (ethOracle : Address → Option Nat)
    (tokenOracle : Address → Address → Option Nat)
    (tokens : List (String × TokenConfig)) : List (Address × String)
    → List (String × TokenBalance) → List WalletDetails → PortfolioData
  | [], agg, details => ⟨agg, details⟩
  | w :: rest, agg, details =>
    let balances := getWalletBalances ethOracle tokenOracle tokens w.1
    aggregateLoop ethOracle tokenOracle tokens rest
      (balances.foldl (fun a p => aggInc a p.1 p.2) agg)
      (details ++ [⟨w.1, w.2, balances⟩])

/-- `aggregatePortfolio` (part_000 lines 224-257): scan the wallets in the
order added, starting from empty accumulators. -/
def aggregatePortfolio (ethOracle : Address → Option Nat)
    (tokenOracle : Address → Address → Option Nat)
    (tokens : List (String × TokenConfig)) (wallets : List (Address × String)) :
    PortfolioData :=
  aggregateLoop ethOracle tokenOracle tokens wallets [] []

/-- First aggregated balance stored under a symbol (0 if absent). -/
def balanceOf : List (String × TokenBalance) → String → Frac
  | [], _ => ⟨0, 1⟩
  | p :: t, sym => if p.1 = sym then p.2.balance else balanceOf t sym

/-- Test token: 6 decimals, like USDC. -/
def tokaConfig : TokenConfig := ⟨some "0xtoka", 6, "TOKA"⟩

/-- Balance oracle for the drift scenario: wallets w1, w2, w3 hold raw
100000, 200000, 300000 TOKA (0.1, 0.2, 0.3 in human units). -/
def driftTokenOracle : Address → Address → Option Nat := fun _ w =>
  if w = "0xw1" then some 100000 else if w = "0xw2" then some 200000
  else if w = "0xw3" then some 300000 else none

/-- ETH oracle that always fails (so ETH never enters the portfolio). -/
def noEthOracle : Address → Option Nat := fun _ => none

/-- C2 (code bug): aggregating TOKA balances 0.1, 0.2, 0.3 across three
wallets with the source's `parseFloat` accumulation yields the binary64 value
`5404319552844596 / 2^53` (`0.6000000000000001`), which differs from the exact
decimal sum `0.6`; processing the same wallets in reverse order yields the
different value `5404319552844595 / 2^53` (`0.6`).  The cross-wallet total is
therefore neither the exact decimal sum nor order-independent. -/
theorem c2_float_accumulation_drift :
    balanceOf (aggregatePortfolio noEthOracle driftTokenOracle
        [("TOKA", tokaConfig)]
        [("0xw1", ""), ("0xw2", ""), ("0xw3", "")]).aggregatedBalances "TOKA"
      = ⟨5404319552844596, 2 ^ 53⟩
    ∧ feq ⟨5404319552844596, 2 ^ 53⟩ (fadd (fadd ⟨1, 10⟩ ⟨1, 5⟩) ⟨3, 10⟩)
      = false
    ∧ balanceOf (aggregatePortfolio noEthOracle driftTokenOracle
        [("TOKA", tokaConfig)]
        [("0xw3", ""), ("0xw2", ""), ("0xw1", "")]).aggregatedBalances "TOKA"
      = ⟨5404319552844595, 2 ^ 53⟩ := by
  refine ⟨by decide, by decide, by decide⟩

/-- JS number with the IEEE-754 non-finite values that division can produce. -/
inductive JsNum where
  | num : Frac → JsNum
  | nan : JsNum
  | posInf : JsNum
  | negInf : JsNum
deriving DecidableEq

/-- JS division `a / b` of finite values: `0 / 0` is `NaN`, `x / 0` for
nonzero `x` is a signed infinity, otherwise the rounded quotient. -/
def jsDiv (a b : Frac) : JsNum :=
  if b.n = 0 then
    if a.n = 0 then JsNum.nan
    else if 0 < a.n * a.d then JsNum.posInf
    else JsNum.negInf
  else
    JsNum.num (roundB64
      (if a.d * b.n < 0 then ⟨-(a.n * b.d), -(a.d * b.n)⟩
       else ⟨a.n * b.d, a.d * b.n⟩))

/-- JS multiplication of a possibly non-finite value by a finite literal. -/
def jsMulLit (x : JsNum) (c : Frac) : JsNum :=
  match x with
  | JsNum.num v => JsNum.num (roundB64 (fmul v c))
  | JsNum.nan => JsNum.nan
  | JsNum.posInf =>
    if 0 < c.n then JsNum.posInf
    else if c.n = 0 then JsNum.nan else JsNum.negInf
  | JsNum.negInf =>
    if 0 < c.n then JsNum.negInf
    else if c.n = 0 then JsNum.nan else JsNum.posInf

/-- `calculatePortfolioValue` (part_000 lines 259-293): one pass computes
`value = parseFloat(balance) * price` per symbol, accumulating `totalValue`;
a second pass sets `percentage = (value / totalValue) * 100`.  The `toFixed`
string formatting of the displayed fields and the final sort by value are not
modelled (they do not affect the division artifact examined here: `toFixed` of
`NaN` is the string `"NaN"`). -/
def calculatePortfolioValue (aggregatedBalances : List (String × TokenBalance))
    (priceOf : String → Frac) : Frac × List (String × Frac × JsNum) :=
  let rows := aggregatedBalances.map fun p =>
    (p.1, roundB64 (fmul (roundB64 p.2.balance) (priceOf p.1)))
  let totalValue := rows.foldl (fun acc r => roundB64 (fadd acc r.2)) ⟨0, 1⟩
  (totalValue,
   rows.map fun r => (r.1, r.2, jsMulLit (jsDiv r.2 totalValue) ⟨100, 1⟩))

/-- C3 (code bug): with a single aggregated symbol whose price lookup returned
0, every row value is 0 and `totalValue` is 0, and the percentage pass then
computes `(0 / 0) * 100 = NaN` — not the 0 the specification requires for the
`totalValue == 0` case. -/
theorem c3_percentage_nan_on_zero_total :
    calculatePortfolioValue [("TOKA", ⟨⟨10, 1⟩, "TOKA", 6⟩)] (fun _ => ⟨0, 1⟩)
      = (⟨0, 1⟩, [("TOKA", ⟨0, 1⟩, JsNum.nan)])
    ∧ JsNum.nan ≠ JsNum.num ⟨0, 1⟩ := by
  refine ⟨by decide, by decide⟩

/-- Closed form of one token-loop step: the entry `getWalletBalances` retains
for a configured token — present with the exact formatted balance iff the raw
balance is positive and its parsed value strictly exceeds the parsed `0.001`
dust literal. -/
def retainedToken (tokenOracle : Address → Address → Option Nat)
    (walletAddress : Address) (p : String × TokenConfig) :
    Option (String × TokenBalance) :=
  match p.2.address with
  | none => none
  | some tokenAddress =>
    let raw := getTokenBalance tokenOracle tokenAddress walletAddress
    if 0 < raw
        ∧ flt (roundB64 ⟨1, 1000⟩) (roundB64 (formatUnits raw p.2.decimals))
          = true then
      some (p.1, ⟨formatUnits raw p.2.decimals, p.2.symbol, p.2.decimals⟩)
    else none

theorem objSetBal_append (acc : List (String × TokenBalance)) (k : String)
    (v : TokenBalance) (h : ∀ q ∈ acc, q.1 ≠ k) :
    objSetBal acc k v = acc ++ [(k, v)] := by
  induction acc with
  | nil => rfl
  | cons p t ih =>
    have hp : p.1 ≠ k := h p (List.mem_cons_self p t)
    simp only [objSetBal, if_neg hp, List.cons_append]
    rw [ih (fun q hq => h q (List.mem_cons_of_mem _ hq))]

theorem walletTokenLoop_eq_filterMap (tokenOracle : Address → Address → Option Nat)
    (walletAddress : Address) (tokens : List (String × TokenConfig))
    (acc : List (String × TokenBalance))
    (hnd : (tokens.map Prod.fst).Nodup)
    (hdisj : ∀ p ∈ tokens, p.2.address ≠ none → ∀ q ∈ acc, q.1 ≠ p.1) :
    walletTokenLoop tokenOracle walletAddress tokens acc
      = acc ++ tokens.filterMap (retainedToken tokenOracle walletAddress) := by
  induction tokens generalizing acc with
  | nil => simp [walletTokenLoop]
  | cons hd rest ih =>
    obtain ⟨sym, token⟩ := hd
    have hnd2 : (sym :: rest.map Prod.fst).Nodup := by
      rw [List.map_cons] at hnd; exact hnd
    have hsym_rest : sym ∉ rest.map Prod.fst := (List.nodup_cons.mp hnd2).1
    have hnd' : (rest.map Prod.fst).Nodup := (List.nodup_cons.mp hnd2).2
    have hdisj_rest : ∀ p ∈ rest, p.2.address ≠ none → ∀ q ∈ acc, q.1 ≠ p.1 :=
      fun p hp => hdisj p (List.mem_cons_of_mem _ hp)
    obtain ⟨taddr, tdec, tsym⟩ := token
    cases taddr with
    | none =>
      have hstep : walletTokenLoop tokenOracle walletAddress
          ((sym, (⟨none, tdec, tsym⟩ : TokenConfig)) :: rest) acc
          = walletTokenLoop tokenOracle walletAddress rest acc := rfl
      have hret : retainedToken tokenOracle walletAddress
          (sym, (⟨none, tdec, tsym⟩ : TokenConfig)) = none := rfl
      rw [hstep, ih acc hnd' hdisj_rest, List.filterMap_cons, hret]
    | some tokenAddress =>
      have hstep : walletTokenLoop tokenOracle walletAddress
          ((sym, (⟨some tokenAddress, tdec, tsym⟩ : TokenConfig)) :: rest) acc
          = (if 0 < getTokenBalance tokenOracle tokenAddress walletAddress then
              (if flt (roundB64 ⟨1, 1000⟩)
                  (roundB64 (formatUnits
                    (getTokenBalance tokenOracle tokenAddress walletAddress)
                    tdec)) then
                walletTokenLoop tokenOracle walletAddress rest
                  (objSetBal acc sym
                    ⟨formatUnits
                      (getTokenBalance tokenOracle tokenAddress walletAddress)
                      tdec, tsym, tdec⟩)
              else walletTokenLoop tokenOracle walletAddress rest acc)
            else walletTokenLoop tokenOracle walletAddress rest acc) := rfl
      by_cases hraw : 0 < getTokenBalance tokenOracle tokenAddress walletAddress
      · by_cases hdust : flt (roundB64 ⟨1, 1000⟩)
            (roundB64 (formatUnits
              (getTokenBalance tokenOracle tokenAddress walletAddress) tdec))
            = true
        · have hret0 : retainedToken tokenOracle walletAddress
              (sym, (⟨some tokenAddress, tdec, tsym⟩ : TokenConfig))
              = (if 0 < getTokenBalance tokenOracle tokenAddress walletAddress
                  ∧ flt (roundB64 ⟨1, 1000⟩)
                    (roundB64 (formatUnits
                      (getTokenBalance tokenOracle tokenAddress walletAddress)
                      tdec)) = true then
                some (sym,
                  ⟨formatUnits
                    (getTokenBalance tokenOracle tokenAddress walletAddress)
                    tdec, tsym, tdec⟩)
              else none) := rfl
          have hret : retainedToken tokenOracle walletAddress
              (sym, (⟨some tokenAddress, tdec, tsym⟩ : TokenConfig))
              = some (sym,
                ⟨formatUnits
                  (getTokenBalance tokenOracle tokenAddress walletAddress)
                  tdec, tsym, tdec⟩) := by
            rw [hret0, if_pos (And.intro hraw hdust)]
          have hset : objSetBal acc sym
              ⟨formatUnits
                (getTokenBalance tokenOracle tokenAddress walletAddress)
                tdec, tsym, tdec⟩
              = acc ++ [(sym,
                ⟨formatUnits
                  (getTokenBalance tokenOracle tokenAddress walletAddress)
                  tdec, tsym, tdec⟩)] :=
            objSetBal_append acc sym _
              (hdisj (sym, ⟨some tokenAddress, tdec, tsym⟩)
                (List.mem_cons_self _ _) (by simp))
          have hdisj2 : ∀ p ∈ rest, p.2.address ≠ none → ∀ q ∈ acc ++ [(sym,
              (⟨formatUnits
                (getTokenBalance tokenOracle tokenAddress walletAddress)
                tdec, tsym, tdec⟩ : TokenBalance))], q.1 ≠ p.1 := by
            intro p hp haddr q hq
            rcases List.mem_append.mp hq with hq1 | hq2
            · exact hdisj p (List.mem_cons_of_mem _ hp) haddr q hq1
            · rcases List.mem_singleton.mp hq2 with rfl
              intro hcontra
              apply hsym_rest
              rw [show sym = p.1 from hcontra]
              exact List.mem_map.mpr ⟨p, hp, rfl⟩
          rw [hstep, if_pos hraw, if_pos hdust, hset,
            ih _ hnd' hdisj2, List.filterMap_cons, hret,
            List.append_assoc, List.singleton_append]
        · have hret0 : retainedToken tokenOracle walletAddress
              (sym, (⟨some tokenAddress, tdec, tsym⟩ : TokenConfig))
              = (if 0 < getTokenBalance tokenOracle tokenAddress walletAddress
                  ∧ flt (roundB64 ⟨1, 1000⟩)
                    (roundB64 (formatUnits
                      (getTokenBalance tokenOracle tokenAddress walletAddress)
                      tdec)) = true then
                some (sym,
                  ⟨formatUnits
                    (getTokenBalance tokenOracle tokenAddress walletAddress)
                    tdec, tsym, tdec⟩)
              else none) := rfl
          have hret : retainedToken tokenOracle walletAddress
              (sym, (⟨some tokenAddress, tdec, tsym⟩ : TokenConfig)) = none := by
            rw [hret0, if_neg]
            intro hcontra
            exact hdust hcontra.2
          rw [hstep, if_pos hraw, if_neg hdust,
            ih acc hnd' hdisj_rest, List.filterMap_cons, hret]
      · have hret0 : retainedToken tokenOracle walletAddress
              (sym, (⟨some tokenAddress, tdec, tsym⟩ : TokenConfig))
              = (if 0 < getTokenBalance tokenOracle tokenAddress walletAddress
                ∧ flt (roundB64 ⟨1, 1000⟩)
                (roundB64 (formatUnits
                  (getTokenBalance tokenOracle tokenAddress walletAddress)
                  tdec)) = true then
              some (sym,
                ⟨formatUnits
                (getTokenBalance tokenOracle tokenAddress walletAddress)
                tdec, tsym, tdec⟩)
              else none) := rfl
        have hret : retainedToken tokenOracle walletAddress
            (sym, (⟨some tokenAddress, tdec, tsym⟩ : TokenConfig)) = none := by
          rw [hret0, if_neg]
          intro hcontra
          exact hraw hcontra.1
        rw [hstep, if_neg hraw,
          ih acc hnd' hdisj_rest, List.filterMap_cons, hret]

/-- C7 counterexample: a wallet whose only asset is a native ETH balance of
0.0005 — at or below the claimed dust threshold of 0.001 — is still retained
by `getWalletBalances`, because the source applies no dust comparison to the
native balance (only `parseFloat(ethBalance) > 0`). -/
theorem c7_counterexample :
    getWalletBalances (fun _ => some 500000000000000) (fun _ _ => none) []
        "0xabc"
      = [("ETH", ⟨⟨500000000000000, 10 ^ 18⟩, "ETH", 18⟩)]
    ∧ flt ⟨1, 1000⟩ ⟨500000000000000, 10 ^ 18⟩ = false := by
  refine ⟨by decide, by decide⟩

/-- C7 amended: `getWalletBalances` retains a configured token balance iff its
raw value is positive and its parsed (binary64) value strictly exceeds the
parsed `0.001` literal — so a token balance exactly equal to the threshold is
excluded and a strictly greater one is included — and the retained balance is
the exact formatted value, unaltered; the native ETH balance, however, is
retained iff it is merely positive (no dust threshold; see the
counterexample).  Stated for token sets with distinct symbols not named
`"ETH"`, which is true of the source's registry. -/
theorem c7_dust_filter (ethOracle : Address → Option Nat)
    (tokenOracle : Address → Address → Option Nat)
    (tokens : List (String × TokenConfig)) (walletAddress : Address)
    (hnd : (tokens.map Prod.fst).Nodup)
    (heth : ∀ p ∈ tokens, p.1 = "ETH" → p.2.address = none) :
    getWalletBalances ethOracle tokenOracle tokens walletAddress
      = ethBase ethOracle walletAddress
        ++ tokens.filterMap (retainedToken tokenOracle walletAddress) := by
  unfold getWalletBalances
  refine walletTokenLoop_eq_filterMap tokenOracle walletAddress tokens
    (ethBase ethOracle walletAddress) hnd ?_
  intro p hp haddr q hq
  have hqE : q.1 = "ETH" := by
    unfold ethBase at hq
    by_cases hpos : flt ⟨0, 1⟩
        (roundB64 (getETHBalance ethOracle walletAddress)) = true
    · rw [if_pos hpos] at hq
      rcases List.mem_singleton.mp hq with rfl
      rfl
    · rw [if_neg (by simpa using hpos)] at hq
      cases hq
  rw [hqE]
  intro hcontra
  exact haddr (heth p hp hcontra.symm)

/-- The `ETH` entry of the source's `DEFAULT_TOKENS` registry: no contract
address, 18 decimals. -/
def defaultEthConfig : TokenConfig := ⟨none, 18, "ETH"⟩

theorem c7_dust_filter_witness :
    getWalletBalances (fun _ => some (2 * 10 ^ 18)) (fun _ _ => some 5000)
        [("ETH", defaultEthConfig), ("TOKA", tokaConfig)] "0xw"
      = [("ETH", ⟨⟨2 * 10 ^ 18, 10 ^ 18⟩, "ETH", 18⟩),
         ("TOKA", ⟨⟨5000, 10 ^ 6⟩, "TOKA", 6⟩)] := by
  rw [c7_dust_filter (fun _ => some (2 * 10 ^ 18)) (fun _ _ => some 5000)
    [("ETH", defaultEthConfig), ("TOKA", tokaConfig)] "0xw" (by decide)
    (by decide)]
  decide

theorem walletTokenLoop_congr (tokenOracle1 tokenOracle2 : Address → Address → Option Nat)
    (walletAddress : Address)
    (h : ∀ ta, getTokenBalance tokenOracle1 ta walletAddress
        = getTokenBalance tokenOracle2 ta walletAddress)
    (tokens : List (String × TokenConfig)) (acc : List (String × TokenBalance)) :
    walletTokenLoop tokenOracle1 walletAddress tokens acc
      = walletTokenLoop tokenOracle2 walletAddress tokens acc := by
  induction tokens generalizing acc with
  | nil => rfl
  | cons hd rest ih =>
    obtain ⟨sym, token⟩ := hd
    obtain ⟨taddr, tdec, tsym⟩ := token
    cases taddr with
    | none => exact ih acc
    | some tokenAddress =>
      have hstep : ∀ tokenOracle : Address → Address → Option Nat,
          walletTokenLoop tokenOracle walletAddress
            ((sym, (⟨some tokenAddress, tdec, tsym⟩ : TokenConfig)) :: rest) acc
          = (if 0 < getTokenBalance tokenOracle tokenAddress walletAddress then
              (if flt (roundB64 ⟨1, 1000⟩)
                  (roundB64 (formatUnits
                    (getTokenBalance tokenOracle tokenAddress walletAddress)
                    tdec)) then
                walletTokenLoop tokenOracle walletAddress rest
                  (objSetBal acc sym
                    ⟨formatUnits
                      (getTokenBalance tokenOracle tokenAddress walletAddress)
                      tdec, tsym, tdec⟩)
              else walletTokenLoop tokenOracle walletAddress rest acc)
            else walletTokenLoop tokenOracle walletAddress rest acc) :=
        fun _ => rfl
      rw [hstep tokenOracle1, hstep tokenOracle2, h tokenAddress]
      by_cases hraw : 0 < getTokenBalance tokenOracle2 tokenAddress walletAddress
      · rw [if_pos hraw, if_pos hraw]
        by_cases hdust : flt (roundB64 ⟨1, 1000⟩)
            (roundB64 (formatUnits
              (getTokenBalance tokenOracle2 tokenAddress walletAddress) tdec))
            = true
        · rw [if_pos hdust, if_pos hdust, ih]
        · rw [if_neg hdust, if_neg hdust, ih]
      · rw [if_neg hraw, if_neg hraw, ih]

theorem getWalletBalances_congr (ethOracle1 ethOracle2 : Address → Option Nat)
    (tokenOracle1 tokenOracle2 : Address → Address → Option Nat)
    (tokens : List (String × TokenConfig)) (walletAddress : Address)
    (heth : ethBase ethOracle1 walletAddress = ethBase ethOracle2 walletAddress)
    (htok : ∀ ta, getTokenBalance tokenOracle1 ta walletAddress
        = getTokenBalance tokenOracle2 ta walletAddress) :
    getWalletBalances ethOracle1 tokenOracle1 tokens walletAddress
      = getWalletBalances ethOracle2 tokenOracle2 tokens walletAddress := by
  unfold getWalletBalances
  rw [heth]
  exact walletTokenLoop_congr tokenOracle1 tokenOracle2 walletAddress htok
    tokens _

theorem aggregateLoop_congr (ethOracle1 ethOracle2 : Address → Option Nat)
    (tokenOracle1 tokenOracle2 : Address → Address → Option Nat)
    (tokens : List (String × TokenConfig))
    (h : ∀ w, getWalletBalances ethOracle1 tokenOracle1 tokens w
        = getWalletBalances ethOracle2 tokenOracle2 tokens w)
    (wallets : List (Address × String)) (agg : List (String × TokenBalance))
    (details : List WalletDetails) :
    aggregateLoop ethOracle1 tokenOracle1 tokens wallets agg details
      = aggregateLoop ethOracle2 tokenOracle2 tokens wallets agg details := by
  induction wallets generalizing agg details with
  | nil => rfl
  | cons w rest ih =>
    simp only [aggregateLoop, h w.1]
    exact ih _ _

theorem aggregateLoop_details_length (ethOracle : Address → Option Nat)
    (tokenOracle : Address → Address → Option Nat)
    (tokens : List (String × TokenConfig)) (wallets : List (Address × String))
    (agg : List (String × TokenBalance)) (details : List WalletDetails) :
    (aggregateLoop ethOracle tokenOracle tokens wallets agg details).walletDetails.length
      = details.length + wallets.length := by
  induction wallets generalizing agg details with
  | nil => simp [aggregateLoop]
  | cons w rest ih =>
    simp only [aggregateLoop, ih, List.length_append, List.length_cons]
    simp
    omega

/-- C8: a failing token-balance query at one (token, wallet) pair, and a
failing native-balance query at one wallet, are each absorbed locally as a
zero balance: the whole `aggregatePortfolio` result is identical to the run
in which those queries succeed with 0, and every wallet still contributes
exactly one per-wallet entry (no loop is aborted). -/
theorem c8_failure_as_zero (ethOracle : Address → Option Nat)
    (tokenOracle : Address → Address → Option Nat)
    (tokens : List (String × TokenConfig)) (wallets : List (Address × String))
    (tokenAddress0 wallet0 ethWallet0 : Address)
    (htok : tokenOracle tokenAddress0 wallet0 = none)
    (heth : ethOracle ethWallet0 = none) :
    aggregatePortfolio ethOracle tokenOracle tokens wallets
      = aggregatePortfolio
          (fun w => if w = ethWallet0 then some 0 else ethOracle w)
          (fun ta w => if ta = tokenAddress0 ∧ w = wallet0 then some 0
            else tokenOracle ta w)
          tokens wallets
    ∧ (aggregatePortfolio ethOracle tokenOracle tokens wallets).walletDetails.length
        = wallets.length := by
  constructor
  · unfold aggregatePortfolio
    apply aggregateLoop_congr
    intro w
    apply getWalletBalances_congr
    · by_cases hw : w = ethWallet0
      · subst hw
        simp only [ethBase, getETHBalance]
        simp [heth,
          show flt ⟨0, 1⟩ (roundB64 ⟨0, 1⟩) = false from rfl,
          show flt ⟨0, 1⟩ (roundB64 (formatEther 0)) = false from rfl]
      · simp only [ethBase, getETHBalance]
        simp [hw]
    · intro ta
      unfold getTokenBalance
      by_cases hta : ta = tokenAddress0 ∧ w = wallet0
      · obtain ⟨h1, h2⟩ := hta
        subst h1; subst h2
        simp [htok]
      · simp [hta]
  · unfold aggregatePortfolio
    rw [aggregateLoop_details_length]
    simp

theorem c8_failure_as_zero_witness :
    aggregatePortfolio (fun _ => none) (fun _ _ => none) [("TOKA", tokaConfig)]
        [("0xw1", "")]
      = aggregatePortfolio
          (fun w => if w = "0xw1" then some 0 else none)
          (fun ta w => if ta = "0xtoka" ∧ w = "0xw1" then some 0 else none)
          [("TOKA", tokaConfig)] [("0xw1", "")]
    ∧ (aggregatePortfolio (fun _ => none) (fun _ _ => none)
        [("TOKA", tokaConfig)] [("0xw1", "")]).walletDetails.length = 1 :=
  c8_failure_as_zero (fun _ => none) (fun _ _ => none) [("TOKA", tokaConfig)]
    [("0xw1", "")] "0xtoka" "0xw1" "0xw1" rfl rfl

end EvmTools
